import Mathlib

/-!
Verification development for a header-only finite state machine (FSM)
engine.  The engine dispatches per-state lifecycle callbacks
(enter/update/exit) over a dense table indexed by the state's ordinal
value, and applies one of two transition policies (chained vs
single-step).

Shallow embedding conventions:
* States are `Nat` ordinals; the machine stores its state count `N`
  and uses `N` itself as the "no state entered yet" sentinel value,
  exactly as the source uses the `Count` enumerator.
* The caller-owned context is an opaque handle of type `Ctx` (the
  source's `ContextType*`); the external mutable world reachable from
  the callbacks (the pointee plus anything captured by reference) is a
  value of type `D`, threaded explicitly through every call.
* Callbacks are modelled as total functions receiving the context
  handle, the time value, and the current external data, returning the
  updated external data (and, for update callbacks, a transition
  decision).
* Every callback invocation is recorded in an event trace so that
  observable behaviour (which callback fired, on which state, with
  which arguments, in which order) can be stated and compared.
* Assertion failures in the source are modelled as `Except` errors.
-/

/-- Transition policy: chained transitions in one update (`Immediate`)
or at most one transition per update (`SingleTransition`). -/
inductive TransitionPolicy where
  | Immediate
  | SingleTransition
deriving DecidableEq

/-- Decision value returned by a state's update callback.  The source
stores the target as a `uint64_t` together with a "stay" flag; only the
two named constructors `to` and `stay` produce values. -/
structure StateTransition where
  targetStateValue : Nat
  shouldRemainInCurrentState : Bool
deriving DecidableEq

/-- Named constructor: request a transition to the state with ordinal
value `v`. -/
def StateTransition.to (v : Nat) : StateTransition :=
  ⟨v, false⟩

/-- Named constructor: remain in the current state. -/
def StateTransition.stay : StateTransition :=
  ⟨0, true⟩

/-- One recorded callback invocation: which callback fired, on which
state, with which context handle and time value. -/
inductive FsmEvent (Ctx Time : Type) where
  | enter (s : Nat) (c : Ctx) (t : Time)
  | update (s : Nat) (c : Ctx) (t : Time)
  | exit (s : Nat) (c : Ctx) (t : Time)
deriving DecidableEq

/-- Per-state callback bundle: three independently optional callables,
mirroring the source's `StateCallbacks` (held as `std::function`s). -/
structure StateCallbacks (Ctx Time D : Type) where
  onEnter : Option (Ctx → Time → D → D)
  onUpdate : Option (Ctx → Time → D → StateTransition × D)
  onExit : Option (Ctx → Time → D → D)

/-- A bundle with all three callbacks absent (the default-constructed
state of the source's callback array). -/
def StateCallbacks.none0 (Ctx Time D : Type) : StateCallbacks Ctx Time D :=
  ⟨Option.none, Option.none, Option.none⟩

/-- The machine: state count, context handle, current active state,
last-entered marker (sentinel `stateCount` before the first update) and
the dense per-state callback table. -/
structure Fsm (Ctx Time D : Type) where
  stateCount : Nat
  contextPointer : Ctx
  currentActiveState : Nat
  lastEnteredState : Nat
  allStateCallbacks : Nat → StateCallbacks Ctx Time D

/-- Safety bound on chained transitions within one update call. -/
def kMaxTransitionsPerFrame : Nat := 256

/-- Result of the enter phase of one state step: the (possibly
re-marked) machine, the updated external data, and the trace of enter
callbacks invoked. -/
structure PhaseResult (Ctx Time D : Type) where
  machine : Fsm Ctx Time D
  data : D
  events : List (FsmEvent Ctx Time)

/-- Result of one state step: whether a transition occurred, plus the
updated machine, external data and invocation trace. -/
structure StepResult (Ctx Time D : Type) where
  transitioned : Bool
  machine : Fsm Ctx Time D
  data : D
  events : List (FsmEvent Ctx Time)

/-- Enter phase of `Fsm.processStateStep` (source lines 337-344): if
the active state differs from the last-entered marker, invoke its
`onEnter` (when present) with (context, time) and set the marker to the
active state. -/
def Fsm.enterPhase {Ctx Time D : Type} (m : Fsm Ctx Time D) (t : Time) (d : D) :
    PhaseResult Ctx Time D :=
  if m.currentActiveState ≠ m.lastEnteredState then
    match (m.allStateCallbacks m.currentActiveState).onEnter with
    | some f =>
        ⟨{ m with lastEnteredState := m.currentActiveState },
          f m.contextPointer t d,
          [FsmEvent.enter m.currentActiveState m.contextPointer t]⟩
    | none =>
        ⟨{ m with lastEnteredState := m.currentActiveState }, d, []⟩
  else ⟨m, d, []⟩

/-- One state step, the shared core of both policies, mirroring
`Fsm::processStateStep` (source lines 331-376): enter phase, then the
update callback (absent means terminal), then decision handling with
invalid targets coerced to "stay", then exit and switch on a valid
transition. -/
def Fsm.processStateStep {Ctx Time D : Type} (m : Fsm Ctx Time D) (t : Time) (d : D) :
    StepResult Ctx Time D :=
  let currentCallbacks := m.allStateCallbacks m.currentActiveState
  let ep := m.enterPhase t d
  match currentCallbacks.onUpdate with
  | none => ⟨false, ep.machine, ep.data, ep.events⟩
  | some upd =>
    let res := upd m.contextPointer t ep.data
    let ev2 := ep.events ++ [FsmEvent.update m.currentActiveState m.contextPointer t]
    if res.1.shouldRemainInCurrentState then
      ⟨false, ep.machine, res.2, ev2⟩
    else if res.1.targetStateValue = m.currentActiveState ∨
        m.stateCount ≤ res.1.targetStateValue then
      ⟨false, ep.machine, res.2, ev2⟩
    else
      match currentCallbacks.onExit with
      | some g =>
          ⟨true, { ep.machine with currentActiveState := res.1.targetStateValue },
            g m.contextPointer t res.2,
            ev2 ++ [FsmEvent.exit m.currentActiveState m.contextPointer t]⟩
      | none =>
          ⟨true, { ep.machine with currentActiveState := res.1.targetStateValue },
            res.2, ev2⟩

/-- Fatal failures (assertions in the source). -/
inductive FsmFatal where
  | invalidActiveState
  | tooManyTransitions
deriving DecidableEq

/-- Chained stepping for the `Immediate` policy: run steps while
transitions occur; exhausting the fuel models the source's fatal
"exceeded maximum transitions per frame" assertion. -/
def Fsm.runChain {Ctx Time D : Type} :
    Nat → Fsm Ctx Time D → Time → D →
      Except FsmFatal (Fsm Ctx Time D × D × List (FsmEvent Ctx Time))
  | 0, _, _, _ => .error .tooManyTransitions
  | fuel + 1, m, t, d =>
    let r := m.processStateStep t d
    if r.transitioned then
      match Fsm.runChain fuel r.machine t r.data with
      | .ok (m', d', tr) => .ok (m', d', r.events ++ tr)
      | .error e => .error e
    else
      .ok (r.machine, r.data, r.events)

/-- `Fsm::update` (source lines 282-310): sanity-check the active
state, then run the step procedure under the chosen policy — chained up
to `kMaxTransitionsPerFrame` steps for `Immediate`, exactly one step
for `SingleTransition`. -/
def Fsm.update {Ctx Time D : Type} (p : TransitionPolicy) (m : Fsm Ctx Time D)
    (t : Time) (d : D) :
    Except FsmFatal (Fsm Ctx Time D × D × List (FsmEvent Ctx Time)) :=
  if m.stateCount ≤ m.currentActiveState then
    .error .invalidActiveState
  else
    match p with
    | .Immediate => Fsm.runChain kMaxTransitionsPerFrame m t d
    | .SingleTransition =>
      let r := m.processStateStep t d
      .ok (r.machine, r.data, r.events)

/-- A sequence of update calls with the given time values, threading
machine and external data, concatenating the traces. -/
def Fsm.runUpdates {Ctx Time D : Type} (p : TransitionPolicy) :
    List Time → Fsm Ctx Time D → D →
      Except FsmFatal (Fsm Ctx Time D × D × List (FsmEvent Ctx Time))
  | [], m, d => .ok (m, d, [])
  | t :: ts, m, d =>
    match Fsm.update p m t d with
    | .ok (m', d', tr) =>
      match Fsm.runUpdates p ts m' d' with
      | .ok (m'', d'', tr') => .ok (m'', d'', tr ++ tr')
      | .error e => .error e
    | .error e => .error e

/-- Configuration-time errors of the `state()` operation. -/
inductive ConfigError where
  | invalidState
  | alreadyStarted
deriving DecidableEq

/-- The `state()` configuration operation (source lines 247-254),
modelled as the pair of runtime checks it performs: the requested state
must be in range, and the machine must not have begun updating (the
last-entered marker must still equal the `Count` sentinel). -/
def Fsm.state {Ctx Time D : Type} (m : Fsm Ctx Time D) (s : Nat) :
    Except ConfigError Unit :=
  if m.stateCount ≤ s then .error .invalidState
  else if m.lastEnteredState ≠ m.stateCount then .error .alreadyStarted
  else .ok ()

/-- The constructor (source lines 219-229): initial state, context
handle, last-entered marker set to the sentinel, empty callback
table. -/
def Fsm.mkFsm {Ctx Time D : Type} (n : Nat) (initialState : Nat) (c : Ctx) :
    Fsm Ctx Time D :=
  ⟨n, c, initialState, n, fun _ => StateCallbacks.none0 Ctx Time D⟩

/-- Current state accessor. -/
def Fsm.getCurrentState {Ctx Time D : Type} (m : Fsm Ctx Time D) : Nat :=
  m.currentActiveState

/-- Project the machine's current state out of an update result. -/
def okCurrent {Ctx Time D : Type}
    (r : Except FsmFatal (Fsm Ctx Time D × D × List (FsmEvent Ctx Time))) :
    Option Nat :=
  match r with
  | .ok (m, _, _) => some m.currentActiveState
  | .error _ => none

/-- Project the invocation trace out of an update result (empty on a
fatal result). -/
def okEvents {Ctx Time D : Type}
    (r : Except FsmFatal (Fsm Ctx Time D × D × List (FsmEvent Ctx Time))) :
    List (FsmEvent Ctx Time) :=
  match r with
  | .ok (_, _, tr) => tr
  | .error _ => []

/-- Does the trace contain an exit invocation? -/
def hasExitEvent {Ctx Time : Type} (tr : List (FsmEvent Ctx Time)) : Bool :=
  tr.any fun e =>
    match e with
    | .exit _ _ _ => true
    | _ => false

/-- Is this event an enter invocation on state `s`? -/
def isEnterOf {Ctx Time : Type} (s : Nat) : FsmEvent Ctx Time → Bool
  | .enter s' _ _ => s' == s
  | _ => false

/-- Is this event an exit invocation on state `s`? -/
def isExitOf {Ctx Time : Type} (s : Nat) : FsmEvent Ctx Time → Bool
  | .exit s' _ _ => s' == s
  | _ => false

/-- Number of enter invocations on state `s` in the trace. -/
def countEnter {Ctx Time : Type} (s : Nat) (tr : List (FsmEvent Ctx Time)) : Nat :=
  tr.countP (isEnterOf s)

/-- Number of exit invocations on state `s` in the trace. -/
def countExit {Ctx Time : Type} (s : Nat) (tr : List (FsmEvent Ctx Time)) : Nat :=
  tr.countP (isExitOf s)

/-! ### Basic characterisation lemmas for the enter phase and one step -/

theorem Fsm.enterPhase_machine {Ctx Time D : Type} (m : Fsm Ctx Time D) (t : Time) (d : D) :
    (m.enterPhase t d).machine = { m with lastEnteredState := m.currentActiveState } := by
  unfold Fsm.enterPhase
  by_cases h : m.currentActiveState = m.lastEnteredState
  · simp [h]
    cases m
    simp_all
  · simp [h]
    cases hE : (m.allStateCallbacks m.currentActiveState).onEnter <;> simp

theorem Fsm.enterPhase_skip {Ctx Time D : Type} (m : Fsm Ctx Time D) (t : Time) (d : D)
    (h : m.currentActiveState = m.lastEnteredState) :
    m.enterPhase t d = ⟨m, d, []⟩ := by
  unfold Fsm.enterPhase
  simp [h]

theorem Fsm.enterPhase_events_cases {Ctx Time D : Type} (m : Fsm Ctx Time D) (t : Time) (d : D) :
    (m.enterPhase t d).events = [] ∨
      (m.currentActiveState ≠ m.lastEnteredState ∧
        (m.allStateCallbacks m.currentActiveState).onEnter.isSome = true ∧
        (m.enterPhase t d).events =
          [FsmEvent.enter m.currentActiveState m.contextPointer t]) := by
  unfold Fsm.enterPhase
  by_cases h : m.currentActiveState = m.lastEnteredState
  · simp [h]
  · cases hE : (m.allStateCallbacks m.currentActiveState).onEnter <;> simp [h, hE]

theorem Fsm.enterPhase_events_of_isSome {Ctx Time D : Type} (m : Fsm Ctx Time D) (t : Time)
    (d : D) (h : m.currentActiveState ≠ m.lastEnteredState)
    (hE : (m.allStateCallbacks m.currentActiveState).onEnter.isSome = true) :
    (m.enterPhase t d).events = [FsmEvent.enter m.currentActiveState m.contextPointer t] := by
  unfold Fsm.enterPhase
  cases hE' : (m.allStateCallbacks m.currentActiveState).onEnter <;> simp_all

theorem Fsm.step_machine_eq {Ctx Time D : Type} (m : Fsm Ctx Time D) (t : Time) (d : D) :
    (m.processStateStep t d).machine =
      { m with lastEnteredState := m.currentActiveState,
               currentActiveState := (m.processStateStep t d).machine.currentActiveState } := by
  unfold Fsm.processStateStep
  cases hU : (m.allStateCallbacks m.currentActiveState).onUpdate
  · simp [hU, Fsm.enterPhase_machine]
  · simp only [hU, Fsm.enterPhase_machine]
    split_ifs <;> try rfl
    cases hX : (m.allStateCallbacks m.currentActiveState).onExit <;> simp [hX]

theorem Fsm.step_stateCount {Ctx Time D : Type} (m : Fsm Ctx Time D) (t : Time) (d : D) :
    (m.processStateStep t d).machine.stateCount = m.stateCount := by
  rw [Fsm.step_machine_eq]

theorem Fsm.step_contextPointer {Ctx Time D : Type} (m : Fsm Ctx Time D) (t : Time) (d : D) :
    (m.processStateStep t d).machine.contextPointer = m.contextPointer := by
  rw [Fsm.step_machine_eq]

theorem Fsm.step_callbacks {Ctx Time D : Type} (m : Fsm Ctx Time D) (t : Time) (d : D) :
    (m.processStateStep t d).machine.allStateCallbacks = m.allStateCallbacks := by
  rw [Fsm.step_machine_eq]

theorem Fsm.step_lastEntered {Ctx Time D : Type} (m : Fsm Ctx Time D) (t : Time) (d : D) :
    (m.processStateStep t d).machine.lastEnteredState = m.currentActiveState := by
  rw [Fsm.step_machine_eq]

theorem Fsm.step_onUpdate_none {Ctx Time D : Type} (m : Fsm Ctx Time D) (t : Time) (d : D)
    (hU : (m.allStateCallbacks m.currentActiveState).onUpdate = none) :
    m.processStateStep t d =
      ⟨false, (m.enterPhase t d).machine, (m.enterPhase t d).data,
        (m.enterPhase t d).events⟩ := by
  unfold Fsm.processStateStep
  simp [hU]

theorem Fsm.step_stay {Ctx Time D : Type} (m : Fsm Ctx Time D) (t : Time) (d : D)
    (f : Ctx → Time → D → StateTransition × D)
    (hU : (m.allStateCallbacks m.currentActiveState).onUpdate = some f)
    (hs : (f m.contextPointer t (m.enterPhase t d).data).1.shouldRemainInCurrentState = true) :
    m.processStateStep t d =
      ⟨false, (m.enterPhase t d).machine,
        (f m.contextPointer t (m.enterPhase t d).data).2,
        (m.enterPhase t d).events ++
          [FsmEvent.update m.currentActiveState m.contextPointer t]⟩ := by
  unfold Fsm.processStateStep
  simp [hU, hs]

theorem Fsm.step_invalid {Ctx Time D : Type} (m : Fsm Ctx Time D) (t : Time) (d : D)
    (f : Ctx → Time → D → StateTransition × D)
    (hU : (m.allStateCallbacks m.currentActiveState).onUpdate = some f)
    (hs : (f m.contextPointer t (m.enterPhase t d).data).1.shouldRemainInCurrentState = false)
    (hinv : (f m.contextPointer t (m.enterPhase t d).data).1.targetStateValue =
        m.currentActiveState ∨
      m.stateCount ≤ (f m.contextPointer t (m.enterPhase t d).data).1.targetStateValue) :
    m.processStateStep t d =
      ⟨false, (m.enterPhase t d).machine,
        (f m.contextPointer t (m.enterPhase t d).data).2,
        (m.enterPhase t d).events ++
          [FsmEvent.update m.currentActiveState m.contextPointer t]⟩ := by
  unfold Fsm.processStateStep
  simp only [hU, hs, Bool.false_eq_true, if_false]
  rw [if_pos hinv]

theorem Fsm.step_valid {Ctx Time D : Type} (m : Fsm Ctx Time D) (t : Time) (d : D)
    (f : Ctx → Time → D → StateTransition × D)
    (hU : (m.allStateCallbacks m.currentActiveState).onUpdate = some f)
    (hs : (f m.contextPointer t (m.enterPhase t d).data).1.shouldRemainInCurrentState = false)
    (hne : (f m.contextPointer t (m.enterPhase t d).data).1.targetStateValue ≠
      m.currentActiveState)
    (hlt : (f m.contextPointer t (m.enterPhase t d).data).1.targetStateValue <
      m.stateCount) :
    (m.processStateStep t d).transitioned = true ∧
      (m.processStateStep t d).machine.currentActiveState =
        (f m.contextPointer t (m.enterPhase t d).data).1.targetStateValue := by
  have hno : ¬((f m.contextPointer t (m.enterPhase t d).data).1.targetStateValue =
      m.currentActiveState ∨
    m.stateCount ≤ (f m.contextPointer t (m.enterPhase t d).data).1.targetStateValue) := by
    push_neg
    exact ⟨hne, Nat.lt_iff_add_one_le.mp hlt⟩
  unfold Fsm.processStateStep
  simp only [hU, hs, Bool.false_eq_true, if_false]
  rw [if_neg hno]
  cases hX : (m.allStateCallbacks m.currentActiveState).onExit <;> simp [hX]

theorem Fsm.step_current_of_false {Ctx Time D : Type} (m : Fsm Ctx Time D) (t : Time) (d : D)
    (h : (m.processStateStep t d).transitioned = false) :
    (m.processStateStep t d).machine.currentActiveState = m.currentActiveState := by
  revert h
  unfold Fsm.processStateStep
  cases hU : (m.allStateCallbacks m.currentActiveState).onUpdate
  · simp [hU, Fsm.enterPhase_machine]
  · simp only [hU, Fsm.enterPhase_machine]
    split_ifs <;> try simp
    cases hX : (m.allStateCallbacks m.currentActiveState).onExit <;> simp [hX]

theorem Fsm.step_current_lt {Ctx Time D : Type} (m : Fsm Ctx Time D) (t : Time) (d : D)
    (h : m.currentActiveState < m.stateCount) :
    (m.processStateStep t d).machine.currentActiveState < m.stateCount := by
  unfold Fsm.processStateStep
  cases hU : (m.allStateCallbacks m.currentActiveState).onUpdate
  · simpa [hU, Fsm.enterPhase_machine] using h
  · simp only [hU, Fsm.enterPhase_machine]
    split_ifs with h1 h2
    · simpa using h
    · simpa using h
    · push_neg at h2
      cases hX : (m.allStateCallbacks m.currentActiveState).onExit <;> simp [hX] <;> omega

theorem Fsm.runChain_succ {Ctx Time D : Type} (fuel : Nat) (m : Fsm Ctx Time D)
    (t : Time) (d : D) :
    Fsm.runChain (fuel + 1) m t d =
      (if (m.processStateStep t d).transitioned then
        match Fsm.runChain fuel (m.processStateStep t d).machine t
            (m.processStateStep t d).data with
        | .ok (m', d', tr) => .ok (m', d', (m.processStateStep t d).events ++ tr)
        | .error e => .error e
      else
        .ok ((m.processStateStep t d).machine, (m.processStateStep t d).data,
          (m.processStateStep t d).events)) := rfl

theorem Fsm.runChain_preserves {Ctx Time D : Type} (t : Time) (P : Fsm Ctx Time D → Prop)
    (hstep : ∀ (m : Fsm Ctx Time D) (d : D), P m → P ((m.processStateStep t d).machine)) :
    ∀ (fuel : Nat) (m : Fsm Ctx Time D) (d : D) (m' : Fsm Ctx Time D) (d' : D)
      (tr : List (FsmEvent Ctx Time)),
      Fsm.runChain fuel m t d = .ok (m', d', tr) → P m → P m' := by
  intro fuel
  induction fuel with
  | zero =>
    intro m d m' d' tr h
    simp [Fsm.runChain] at h
  | succ n ih =>
    intro m d m' d' tr h hP
    rw [Fsm.runChain_succ] at h
    by_cases ht : (m.processStateStep t d).transitioned
    · rw [if_pos ht] at h
      cases hrec : Fsm.runChain n (m.processStateStep t d).machine t
          (m.processStateStep t d).data with
      | ok trip =>
        obtain ⟨m2, d2, tr2⟩ := trip
        rw [hrec] at h
        simp only [Except.ok.injEq, Prod.mk.injEq] at h
        obtain ⟨h1, _, _⟩ := h
        subst h1
        exact ih _ _ _ _ _ hrec (hstep m d hP)
      | error e =>
        rw [hrec] at h
        simp at h
    · rw [if_neg ht] at h
      simp only [Except.ok.injEq, Prod.mk.injEq] at h
      obtain ⟨h1, _, _⟩ := h
      subst h1
      exact hstep m d hP

theorem Fsm.update_preserves {Ctx Time D : Type} (p : TransitionPolicy) (t : Time)
    (P : Fsm Ctx Time D → Prop)
    (hstep : ∀ (m : Fsm Ctx Time D) (d : D), P m → P ((m.processStateStep t d).machine)) :
    ∀ (m : Fsm Ctx Time D) (d : D) (m' : Fsm Ctx Time D) (d' : D)
      (tr : List (FsmEvent Ctx Time)),
      Fsm.update p m t d = .ok (m', d', tr) → P m → P m' := by
  intro m d m' d' tr h hP
  unfold Fsm.update at h
  by_cases hg : m.stateCount ≤ m.currentActiveState
  · rw [if_pos hg] at h
    simp at h
  · rw [if_neg hg] at h
    cases p with
    | Immediate =>
      exact Fsm.runChain_preserves t P hstep kMaxTransitionsPerFrame m d m' d' tr h hP
    | SingleTransition =>
      simp only [Except.ok.injEq, Prod.mk.injEq] at h
      obtain ⟨h1, _, _⟩ := h
      subst h1
      exact hstep m d hP

theorem Fsm.runUpdates_preserves {Ctx Time D : Type} (p : TransitionPolicy)
    (P : Fsm Ctx Time D → Prop)
    (hstep : ∀ (m : Fsm Ctx Time D) (t : Time) (d : D),
      P m → P ((m.processStateStep t d).machine)) :
    ∀ (ts : List Time) (m : Fsm Ctx Time D) (d : D) (m' : Fsm Ctx Time D) (d' : D)
      (tr : List (FsmEvent Ctx Time)),
      Fsm.runUpdates p ts m d = .ok (m', d', tr) → P m → P m' := by
  intro ts
  induction ts with
  | nil =>
    intro m d m' d' tr h hP
    simp only [Fsm.runUpdates, Except.ok.injEq, Prod.mk.injEq] at h
    obtain ⟨h1, _, _⟩ := h
    subst h1
    exact hP
  | cons t ts ih =>
    intro m d m' d' tr h hP
    simp only [Fsm.runUpdates] at h
    split at h
    · rename_i m2 d2 tr2 h1
      split at h
      · rename_i m3 d3 tr3 h2
        simp only [Except.ok.injEq, Prod.mk.injEq] at h
        obtain ⟨hm, _, _⟩ := h
        subst hm
        exact ih m2 d2 m3 d3 tr3 h2
          (Fsm.update_preserves p t P (fun mm dd => hstep mm t dd) m d m2 d2 tr2 h1 hP)
      · simp at h
    · simp at h

theorem Fsm.update_single_eq {Ctx Time D : Type} (m : Fsm Ctx Time D) (t : Time) (d : D)
    (h : ¬ m.stateCount ≤ m.currentActiveState) :
    Fsm.update .SingleTransition m t d =
      .ok ((m.processStateStep t d).machine, (m.processStateStep t d).data,
        (m.processStateStep t d).events) := by
  unfold Fsm.update
  rw [if_neg h]

theorem Fsm.update_immediate_of_false {Ctx Time D : Type} (m : Fsm Ctx Time D) (t : Time)
    (d : D) (h : ¬ m.stateCount ≤ m.currentActiveState)
    (ht : (m.processStateStep t d).transitioned = false) :
    Fsm.update .Immediate m t d =
      .ok ((m.processStateStep t d).machine, (m.processStateStep t d).data,
        (m.processStateStep t d).events) := by
  unfold Fsm.update
  rw [if_neg h]
  have h256 : kMaxTransitionsPerFrame = 255 + 1 := rfl
  rw [h256, Fsm.runChain_succ, if_neg (by simp [ht])]

theorem hasExitEvent_append {Ctx Time : Type} (a b : List (FsmEvent Ctx Time)) :
    hasExitEvent (a ++ b) = (hasExitEvent a || hasExitEvent b) := by
  unfold hasExitEvent
  exact List.any_append

theorem hasExitEvent_enterPhase {Ctx Time D : Type} (m : Fsm Ctx Time D) (t : Time) (d : D) :
    hasExitEvent (m.enterPhase t d).events = false := by
  rcases Fsm.enterPhase_events_cases m t d with h | ⟨_, _, h⟩ <;> rw [h] <;> rfl

theorem Fsm.runChain_lastEntered_lt {Ctx Time D : Type} (t : Time) :
    ∀ (fuel : Nat) (m : Fsm Ctx Time D) (d : D) (m' : Fsm Ctx Time D) (d' : D)
      (tr : List (FsmEvent Ctx Time)),
      Fsm.runChain fuel m t d = .ok (m', d', tr) →
      m.currentActiveState < m.stateCount →
      m'.lastEnteredState < m'.stateCount := by
  intro fuel
  induction fuel with
  | zero =>
    intro m d m' d' tr h
    simp [Fsm.runChain] at h
  | succ n ih =>
    intro m d m' d' tr h hcur
    rw [Fsm.runChain_succ] at h
    by_cases ht : (m.processStateStep t d).transitioned
    · rw [if_pos ht] at h
      cases hrec : Fsm.runChain n (m.processStateStep t d).machine t
          (m.processStateStep t d).data with
      | ok trip =>
        obtain ⟨m2, d2, tr2⟩ := trip
        rw [hrec] at h
        simp only [Except.ok.injEq, Prod.mk.injEq] at h
        obtain ⟨h1, _, _⟩ := h
        subst h1
        have : (m.processStateStep t d).machine.currentActiveState <
            (m.processStateStep t d).machine.stateCount := by
          rw [Fsm.step_stateCount]
          exact Fsm.step_current_lt m t d hcur
        exact ih _ _ _ _ _ hrec this
      | error e =>
        rw [hrec] at h
        simp at h
    · rw [if_neg ht] at h
      simp only [Except.ok.injEq, Prod.mk.injEq] at h
      obtain ⟨h1, _, _⟩ := h
      subst h1
      rw [Fsm.step_lastEntered, Fsm.step_stateCount]
      exact hcur

theorem Fsm.update_lastEntered_lt {Ctx Time D : Type} (p : TransitionPolicy)
    (m : Fsm Ctx Time D) (t : Time) (d : D) (m' : Fsm Ctx Time D) (d' : D)
    (tr : List (FsmEvent Ctx Time))
    (hok : Fsm.update p m t d = .ok (m', d', tr))
    (hcur : m.currentActiveState < m.stateCount) :
    m'.lastEnteredState < m'.stateCount := by
  unfold Fsm.update at hok
  rw [if_neg (Nat.not_le.mpr hcur)] at hok
  cases p with
  | Immediate =>
    exact Fsm.runChain_lastEntered_lt t kMaxTransitionsPerFrame m d m' d' tr hok hcur
  | SingleTransition =>
    simp only [Except.ok.injEq, Prod.mk.injEq] at hok
    obtain ⟨h1, _, _⟩ := hok
    subst h1
    rw [Fsm.step_lastEntered, Fsm.step_stateCount]
    exact hcur

theorem Fsm.update_guard {Ctx Time D : Type} (p : TransitionPolicy) (m : Fsm Ctx Time D)
    (t : Time) (d : D) (hg : m.stateCount ≤ m.currentActiveState) :
    Fsm.update p m t d = .error .invalidActiveState := by
  unfold Fsm.update
  rw [if_pos hg]

/-! ### Concrete machines used as witnesses and counterexamples -/

/-- Callbacks for the spec's three-state scenario: Idle (0) transitions
to Running (1), Running to Jumping (2), Jumping stays; each state has an
onEnter callback. -/
def scenarioCallbacks : Nat → StateCallbacks Unit Nat Unit :=
  fun s =>
    if s = 0 then
      ⟨some fun _ _ d => d, some fun _ _ d => (StateTransition.to 1, d), none⟩
    else if s = 1 then
      ⟨some fun _ _ d => d, some fun _ _ d => (StateTransition.to 2, d), none⟩
    else if s = 2 then
      ⟨some fun _ _ d => d, some fun _ _ d => (StateTransition.stay, d), none⟩
    else StateCallbacks.none0 Unit Nat Unit

/-- The three-state scenario machine, freshly constructed in Idle. -/
def scenarioFsm : Fsm Unit Nat Unit :=
  ⟨3, (), 0, 3, scenarioCallbacks⟩

/-- A one-state machine whose single state has no callbacks at all
(in particular no onUpdate: a terminal state). -/
def terminalFsm : Fsm Unit Nat Unit :=
  ⟨1, (), 0, 1, fun _ => StateCallbacks.none0 Unit Nat Unit⟩

/-- A one-state machine whose single state always stays. -/
def stayFsm : Fsm Unit Nat Unit :=
  ⟨1, (), 0, 1, fun _ => ⟨none, some fun _ _ d => (StateTransition.stay, d), none⟩⟩

/-- A two-state machine whose state 0 requests a transition to the
out-of-range target 5 and has an onExit callback installed. -/
def invalidTargetFsm : Fsm Unit Nat Unit :=
  ⟨2, (), 0, 2, fun s =>
    if s = 0 then
      ⟨none, some fun _ _ d => (StateTransition.to 5, d), some fun _ _ d => d⟩
    else StateCallbacks.none0 Unit Nat Unit⟩

/-- Two states that unconditionally transition into each other. -/
def pingPongFsm : Fsm Unit Nat Unit :=
  ⟨2, (), 0, 2, fun s =>
    if s = 0 then ⟨none, some fun _ _ d => (StateTransition.to 1, d), none⟩
    else if s = 1 then ⟨none, some fun _ _ d => (StateTransition.to 0, d), none⟩
    else StateCallbacks.none0 Unit Nat Unit⟩

/-- A machine whose state 0 has an onExit callback but no onEnter
callback, and transitions to state 1. -/
def exitOnlyFsm : Fsm Unit Nat Unit :=
  ⟨2, (), 0, 2, fun s =>
    if s = 0 then
      ⟨none, some fun _ _ d => (StateTransition.to 1, d), some fun _ _ d => d⟩
    else StateCallbacks.none0 Unit Nat Unit⟩

/-! ### Claim theorems -/

/-- Claim C5: whenever the shared single-step procedure reports no
transition, the chained (Immediate) policy and the single-step
(SingleTransition) policy produce identical update results — the same
machine, external data, and callback-invocation trace. -/
theorem Fsm.policy_equivalence_no_transition {Ctx Time D : Type} (m : Fsm Ctx Time D)
    (t : Time) (d : D) (h : (m.processStateStep t d).transitioned = false) :
    Fsm.update .Immediate m t d = Fsm.update .SingleTransition m t d := by
  by_cases hg : m.stateCount ≤ m.currentActiveState
  · rw [Fsm.update_guard _ _ _ _ hg, Fsm.update_guard _ _ _ _ hg]
  · rw [Fsm.update_immediate_of_false m t d hg h, Fsm.update_single_eq m t d hg]

/-- Witness for C5 at a concrete staying machine. -/
theorem Fsm.policy_equivalence_no_transition_witness :
    Fsm.update .Immediate stayFsm 0 () = Fsm.update .SingleTransition stayFsm 0 () :=
  Fsm.policy_equivalence_no_transition stayFsm 0 () rfl

/-- Claim C6: a state configured without an onUpdate callback is
terminal — once active, the machine's current state never changes, for
any number of update calls and under either policy. -/
theorem Fsm.terminal_state_never_transitions {Ctx Time D : Type} (p : TransitionPolicy)
    (ts : List Time) : ∀ (m : Fsm Ctx Time D) (d : D),
    m.currentActiveState < m.stateCount →
    (m.allStateCallbacks m.currentActiveState).onUpdate = none →
    ∃ m' d' tr, Fsm.runUpdates p ts m d = .ok (m', d', tr) ∧
      m'.currentActiveState = m.currentActiveState := by
  induction ts with
  | nil =>
    intro m d _ _
    exact ⟨m, d, [], rfl, rfl⟩
  | cons t ts ih =>
    intro m d hcur hterm
    have hstep := Fsm.step_onUpdate_none m t d hterm
    have ht : (m.processStateStep t d).transitioned = false := by rw [hstep]
    have hup : Fsm.update p m t d =
        .ok ((m.processStateStep t d).machine, (m.processStateStep t d).data,
          (m.processStateStep t d).events) := by
      cases p with
      | Immediate => exact Fsm.update_immediate_of_false m t d (Nat.not_le.mpr hcur) ht
      | SingleTransition => exact Fsm.update_single_eq m t d (Nat.not_le.mpr hcur)
    have hc2 : (m.processStateStep t d).machine.currentActiveState =
        m.currentActiveState := Fsm.step_current_of_false m t d ht
    have hcur2 : (m.processStateStep t d).machine.currentActiveState <
        (m.processStateStep t d).machine.stateCount := by
      rw [hc2, Fsm.step_stateCount]
      exact hcur
    have hterm2 : ((m.processStateStep t d).machine.allStateCallbacks
        (m.processStateStep t d).machine.currentActiveState).onUpdate = none := by
      rw [Fsm.step_callbacks, hc2]
      exact hterm
    obtain ⟨m', d', tr, hok, hfin⟩ := ih (m.processStateStep t d).machine
      (m.processStateStep t d).data hcur2 hterm2
    refine ⟨m', d', (m.processStateStep t d).events ++ tr, ?_, ?_⟩
    · simp only [Fsm.runUpdates, hup, hok]
    · rw [hfin, hc2]

/-- Witness for C6 at a concrete terminal machine over two calls. -/
theorem Fsm.terminal_state_never_transitions_witness :
    ∃ m' d' tr, Fsm.runUpdates .Immediate [0, 1] terminalFsm () = .ok (m', d', tr) ∧
      m'.currentActiveState = terminalFsm.currentActiveState :=
  Fsm.terminal_state_never_transitions .Immediate [0, 1] terminalFsm () (by decide) rfl

/-- Claim C8: after any successful update call on a machine whose
active state is in range, the last-entered marker differs from the
sentinel, so every subsequent call of the configuration operation is
rejected — with the "already started" error for in-range states — and
never returns success. -/
theorem Fsm.configure_after_update_rejected {Ctx Time D : Type} (p : TransitionPolicy)
    (m : Fsm Ctx Time D) (t : Time) (d : D) (m' : Fsm Ctx Time D) (d' : D)
    (tr : List (FsmEvent Ctx Time)) (hcur : m.currentActiveState < m.stateCount)
    (hok : Fsm.update p m t d = .ok (m', d', tr)) :
    m'.lastEnteredState ≠ m'.stateCount ∧
      (∀ s, s < m'.stateCount → Fsm.state m' s = .error .alreadyStarted) ∧
      ∀ s, Fsm.state m' s ≠ .ok () := by
  have hlt := Fsm.update_lastEntered_lt p m t d m' d' tr hok hcur
  have hne : m'.lastEnteredState ≠ m'.stateCount := Nat.ne_of_lt hlt
  refine ⟨hne, ?_, ?_⟩
  · intro s hs
    unfold Fsm.state
    rw [if_neg (Nat.not_le.mpr hs), if_pos hne]
  · intro s
    unfold Fsm.state
    by_cases hs : m'.stateCount ≤ s
    · rw [if_pos hs]
      simp
    · rw [if_neg hs, if_pos hne]
      simp

/-- Witness for C8 after one update of a concrete staying machine. -/
theorem Fsm.configure_after_update_rejected_witness :
    (⟨1, (), 0, 0, stayFsm.allStateCallbacks⟩ : Fsm Unit Nat Unit).lastEnteredState ≠
        (⟨1, (), 0, 0, stayFsm.allStateCallbacks⟩ : Fsm Unit Nat Unit).stateCount ∧
      (∀ s, s < (⟨1, (), 0, 0, stayFsm.allStateCallbacks⟩ : Fsm Unit Nat Unit).stateCount →
        Fsm.state (⟨1, (), 0, 0, stayFsm.allStateCallbacks⟩ : Fsm Unit Nat Unit) s =
          .error .alreadyStarted) ∧
      ∀ s, Fsm.state (⟨1, (), 0, 0, stayFsm.allStateCallbacks⟩ : Fsm Unit Nat Unit) s ≠
        .ok () :=
  Fsm.configure_after_update_rejected .SingleTransition stayFsm 0 ()
    ⟨1, (), 0, 0, stayFsm.allStateCallbacks⟩ () [FsmEvent.update 0 () 0]
    (by decide) rfl

/-- Claim C9: for every machine whose active state lies in
`[0, stateCount)` — as the constructor's assertion guarantees — and
every sequence of update calls with any callbacks, the active state is
still in `[0, stateCount)` after the sequence. -/
theorem Fsm.current_state_stays_in_range {Ctx Time D : Type} (p : TransitionPolicy)
    (ts : List Time) (m : Fsm Ctx Time D) (d : D)
    (h : m.currentActiveState < m.stateCount)
    (m' : Fsm Ctx Time D) (d' : D) (tr : List (FsmEvent Ctx Time))
    (hok : Fsm.runUpdates p ts m d = .ok (m', d', tr)) :
    m'.currentActiveState < m.stateCount := by
  have hP := Fsm.runUpdates_preserves p
    (fun mm => mm.currentActiveState < mm.stateCount ∧ mm.stateCount = m.stateCount)
    (fun mm t dd hh => by
      refine ⟨?_, ?_⟩
      · rw [Fsm.step_stateCount]
        exact Fsm.step_current_lt mm t dd hh.1
      · rw [Fsm.step_stateCount]
        exact hh.2)
    ts m d m' d' tr hok ⟨h, rfl⟩
  rw [← hP.2]
  exact hP.1

/-- Witness for C9 at a concrete terminal machine. -/
theorem Fsm.current_state_stays_in_range_witness :
    (⟨1, (), 0, 0, fun _ => StateCallbacks.none0 Unit Nat Unit⟩ :
      Fsm Unit Nat Unit).currentActiveState < terminalFsm.stateCount :=
  Fsm.current_state_stays_in_range .Immediate [0] terminalFsm () (by decide)
    ⟨1, (), 0, 0, fun _ => StateCallbacks.none0 Unit Nat Unit⟩ () [] rfl

/-- Claim C10: a successful update call leaves the state count, the
context pointer and every entry of the per-state callback table
unchanged; only the active state and the last-entered marker can
differ. -/
theorem Fsm.update_frame_effect {Ctx Time D : Type} (p : TransitionPolicy)
    (m : Fsm Ctx Time D) (t : Time) (d : D) (m' : Fsm Ctx Time D) (d' : D)
    (tr : List (FsmEvent Ctx Time))
    (hok : Fsm.update p m t d = .ok (m', d', tr)) :
    m'.stateCount = m.stateCount ∧ m'.contextPointer = m.contextPointer ∧
      ∀ i, m'.allStateCallbacks i = m.allStateCallbacks i :=
  Fsm.update_preserves p t
    (fun mm => mm.stateCount = m.stateCount ∧ mm.contextPointer = m.contextPointer ∧
      ∀ i, mm.allStateCallbacks i = m.allStateCallbacks i)
    (fun mm dd hh => by
      refine ⟨?_, ?_, ?_⟩
      · rw [Fsm.step_stateCount]
        exact hh.1
      · rw [Fsm.step_contextPointer]
        exact hh.2.1
      · intro i
        rw [Fsm.step_callbacks]
        exact hh.2.2 i)
    m d m' d' tr hok ⟨rfl, rfl, fun _ => rfl⟩

/-- Witness for C10 after one update of a concrete staying machine. -/
theorem Fsm.update_frame_effect_witness :
    (⟨1, (), 0, 0, stayFsm.allStateCallbacks⟩ : Fsm Unit Nat Unit).stateCount =
        stayFsm.stateCount ∧
      (⟨1, (), 0, 0, stayFsm.allStateCallbacks⟩ : Fsm Unit Nat Unit).contextPointer =
        stayFsm.contextPointer ∧
      ∀ i, (⟨1, (), 0, 0, stayFsm.allStateCallbacks⟩ :
          Fsm Unit Nat Unit).allStateCallbacks i = stayFsm.allStateCallbacks i :=
  Fsm.update_frame_effect .SingleTransition stayFsm 0 ()
    ⟨1, (), 0, 0, stayFsm.allStateCallbacks⟩ () [FsmEvent.update 0 () 0] rfl

/-- Claim C2: a decision whose target equals the current state or lies
outside `[0, stateCount)` is coerced to "stay": under either policy the
update call succeeds with the current state unchanged, no onExit
invocation in the trace, and no transition. -/
theorem Fsm.invalid_target_coerced_to_stay {Ctx Time D : Type} (p : TransitionPolicy)
    (m : Fsm Ctx Time D) (t : Time) (d : D) (f : Ctx → Time → D → StateTransition × D)
    (hcur : m.currentActiveState < m.stateCount)
    (hU : (m.allStateCallbacks m.currentActiveState).onUpdate = some f)
    (hs : (f m.contextPointer t (m.enterPhase t d).data).1.shouldRemainInCurrentState =
      false)
    (hinv : (f m.contextPointer t (m.enterPhase t d).data).1.targetStateValue =
        m.currentActiveState ∨
      m.stateCount ≤ (f m.contextPointer t (m.enterPhase t d).data).1.targetStateValue) :
    (m.processStateStep t d).transitioned = false ∧
    ∃ m' d' tr, Fsm.update p m t d = .ok (m', d', tr) ∧
      m'.currentActiveState = m.currentActiveState ∧ hasExitEvent tr = false := by
  have hstep := Fsm.step_invalid m t d f hU hs hinv
  have ht : (m.processStateStep t d).transitioned = false := by rw [hstep]
  refine ⟨ht, ?_⟩
  have hup : Fsm.update p m t d =
      .ok ((m.processStateStep t d).machine, (m.processStateStep t d).data,
        (m.processStateStep t d).events) := by
    cases p with
    | Immediate => exact Fsm.update_immediate_of_false m t d (Nat.not_le.mpr hcur) ht
    | SingleTransition => exact Fsm.update_single_eq m t d (Nat.not_le.mpr hcur)
  refine ⟨_, _, _, hup, Fsm.step_current_of_false m t d ht, ?_⟩
  rw [hstep]
  show hasExitEvent ((m.enterPhase t d).events ++
    [FsmEvent.update m.currentActiveState m.contextPointer t]) = false
  rw [hasExitEvent_append, hasExitEvent_enterPhase]
  rfl

/-- Witness for C2: a concrete machine requesting the out-of-range
target 5 (with an onExit installed) stays put and never exits. -/
theorem Fsm.invalid_target_coerced_to_stay_witness :
    (invalidTargetFsm.processStateStep 0 ()).transitioned = false ∧
    ∃ m' d' tr, Fsm.update .SingleTransition invalidTargetFsm 0 () = .ok (m', d', tr) ∧
      m'.currentActiveState = invalidTargetFsm.currentActiveState ∧
      hasExitEvent tr = false :=
  Fsm.invalid_target_coerced_to_stay .SingleTransition invalidTargetFsm 0 ()
    (fun _ _ d => (StateTransition.to 5, d)) (by decide) rfl rfl (by decide)

/-- Claim C3: in the three-state Idle→Running→Jumping scenario, one
chained update from Idle ends in Jumping with both Running's and
Jumping's onEnter fired, while the single-step policy is in Running
after one call — Running's onEnter not yet fired — and needs a second
call to reach Jumping. -/
theorem Fsm.chained_vs_single_step_scenario :
    okCurrent (Fsm.update .Immediate scenarioFsm 0 ()) = some 2 ∧
    (okEvents (Fsm.update .Immediate scenarioFsm 0 ())).any (isEnterOf 1) = true ∧
    (okEvents (Fsm.update .Immediate scenarioFsm 0 ())).any (isEnterOf 2) = true ∧
    okCurrent (Fsm.update .SingleTransition scenarioFsm 0 ()) = some 1 ∧
    (okEvents (Fsm.update .SingleTransition scenarioFsm 0 ())).any (isEnterOf 1) = false ∧
    okCurrent (Fsm.runUpdates .SingleTransition [0, 0] scenarioFsm ()) = some 2 := by
  decide

theorem Fsm.runChain_pingpong {Ctx Time D : Type} (t : Time) (s0 s1 : Nat)
    (f0 f1 : Ctx → Time → D → StateTransition × D)
    (hf0 : ∀ (c : Ctx) (t' : Time) (d' : D), (f0 c t' d').1 = StateTransition.to s1)
    (hf1 : ∀ (c : Ctx) (t' : Time) (d' : D), (f1 c t' d').1 = StateTransition.to s0)
    (hne : s0 ≠ s1) :
    ∀ (fuel : Nat) (m : Fsm Ctx Time D) (d : D),
      s0 < m.stateCount → s1 < m.stateCount →
      (m.allStateCallbacks s0).onUpdate = some f0 →
      (m.allStateCallbacks s1).onUpdate = some f1 →
      (m.currentActiveState = s0 ∨ m.currentActiveState = s1) →
      Fsm.runChain fuel m t d = .error .tooManyTransitions := by
  intro fuel
  induction fuel with
  | zero =>
    intro m d _ _ _ _ _
    rfl
  | succ n ih =>
    intro m d hs0 hs1 hu0 hu1 hcur
    rcases hcur with hc | hc
    · have hU : (m.allStateCallbacks m.currentActiveState).onUpdate = some f0 := by
        rw [hc]
        exact hu0
      have hdec := hf0 m.contextPointer t (m.enterPhase t d).data
      have hstay : (f0 m.contextPointer t
          (m.enterPhase t d).data).1.shouldRemainInCurrentState = false := by
        rw [hdec]
        rfl
      have htgt : (f0 m.contextPointer t (m.enterPhase t d).data).1.targetStateValue =
          s1 := by
        rw [hdec]
        rfl
      have hneq : (f0 m.contextPointer t (m.enterPhase t d).data).1.targetStateValue ≠
          m.currentActiveState := by
        rw [htgt, hc]
        exact hne.symm
      have hlt : (f0 m.contextPointer t (m.enterPhase t d).data).1.targetStateValue <
          m.stateCount := by
        rw [htgt]
        exact hs1
      obtain ⟨htr, hcur'⟩ := Fsm.step_valid m t d f0 hU hstay hneq hlt
      rw [Fsm.runChain_succ, if_pos htr]
      have hrec := ih (m.processStateStep t d).machine (m.processStateStep t d).data
        (by rw [Fsm.step_stateCount]; exact hs0)
        (by rw [Fsm.step_stateCount]; exact hs1)
        (by rw [Fsm.step_callbacks]; exact hu0)
        (by rw [Fsm.step_callbacks]; exact hu1)
        (Or.inr (by rw [hcur', htgt]))
      simp only [hrec]
    · have hU : (m.allStateCallbacks m.currentActiveState).onUpdate = some f1 := by
        rw [hc]
        exact hu1
      have hdec := hf1 m.contextPointer t (m.enterPhase t d).data
      have hstay : (f1 m.contextPointer t
          (m.enterPhase t d).data).1.shouldRemainInCurrentState = false := by
        rw [hdec]
        rfl
      have htgt : (f1 m.contextPointer t (m.enterPhase t d).data).1.targetStateValue =
          s0 := by
        rw [hdec]
        rfl
      have hneq : (f1 m.contextPointer t (m.enterPhase t d).data).1.targetStateValue ≠
          m.currentActiveState := by
        rw [htgt, hc]
        exact hne
      have hlt : (f1 m.contextPointer t (m.enterPhase t d).data).1.targetStateValue <
          m.stateCount := by
        rw [htgt]
        exact hs0
      obtain ⟨htr, hcur'⟩ := Fsm.step_valid m t d f1 hU hstay hneq hlt
      rw [Fsm.runChain_succ, if_pos htr]
      have hrec := ih (m.processStateStep t d).machine (m.processStateStep t d).data
        (by rw [Fsm.step_stateCount]; exact hs0)
        (by rw [Fsm.step_stateCount]; exact hs1)
        (by rw [Fsm.step_callbacks]; exact hu0)
        (by rw [Fsm.step_callbacks]; exact hu1)
        (Or.inl (by rw [hcur', htgt]))
      simp only [hrec]

/-- Claim C4: two in-range states whose onUpdate callbacks
unconditionally transition into each other make a chained update hit
the 256-step safety bound and fail fatally, never returning
normally. -/
theorem Fsm.runaway_mutual_transitions_fatal {Ctx Time D : Type} (m : Fsm Ctx Time D)
    (t : Time) (d : D) (s1 : Nat) (f0 f1 : Ctx → Time → D → StateTransition × D)
    (hcur : m.currentActiveState < m.stateCount) (hs1 : s1 < m.stateCount)
    (hne : m.currentActiveState ≠ s1)
    (hu0 : (m.allStateCallbacks m.currentActiveState).onUpdate = some f0)
    (hu1 : (m.allStateCallbacks s1).onUpdate = some f1)
    (hf0 : ∀ (c : Ctx) (t' : Time) (d' : D), (f0 c t' d').1 = StateTransition.to s1)
    (hf1 : ∀ (c : Ctx) (t' : Time) (d' : D),
      (f1 c t' d').1 = StateTransition.to m.currentActiveState) :
    Fsm.update .Immediate m t d = .error .tooManyTransitions := by
  have hg : Fsm.update .Immediate m t d = Fsm.runChain kMaxTransitionsPerFrame m t d := by
    unfold Fsm.update
    rw [if_neg (Nat.not_le.mpr hcur)]
  rw [hg]
  exact Fsm.runChain_pingpong t m.currentActiveState s1 f0 f1 hf0 hf1 hne
    kMaxTransitionsPerFrame m d hcur hs1 hu0 hu1 (Or.inl rfl)

/-- Witness for C4 at the concrete two-state ping-pong machine. -/
theorem Fsm.runaway_mutual_transitions_fatal_witness :
    Fsm.update .Immediate pingPongFsm 0 () = .error .tooManyTransitions :=
  Fsm.runaway_mutual_transitions_fatal pingPongFsm 0 () 1
    (fun _ _ d => (StateTransition.to 1, d)) (fun _ _ d => (StateTransition.to 0, d))
    (by decide) (by decide) (by decide) rfl rfl
    (fun _ _ _ => rfl) (fun _ _ _ => rfl)

/-- The spec's single-step procedure, written from the specification
text (section 4.2, steps 1-6): step 1 performs enter detection, step 2
treats a missing update callback as terminal, step 3 obtains the
decision, step 4 handles "stay", step 5 coerces a target equal to the
current state or outside the valid range `[0, N)` to "stay", and step 6
performs exit, switch and reports the transition. -/
def specSingleStep {Ctx Time D : Type} (m : Fsm Ctx Time D) (t : Time) (d : D) :
    StepResult Ctx Time D :=
  let afterEnter : StepResult Ctx Time D :=
    if m.currentActiveState = m.lastEnteredState then ⟨false, m, d, []⟩
    else
      match (m.allStateCallbacks m.currentActiveState).onEnter with
      | some f =>
          ⟨false, { m with lastEnteredState := m.currentActiveState },
            f m.contextPointer t d,
            [FsmEvent.enter m.currentActiveState m.contextPointer t]⟩
      | none => ⟨false, { m with lastEnteredState := m.currentActiveState }, d, []⟩
  match (m.allStateCallbacks m.currentActiveState).onUpdate with
  | none => afterEnter
  | some upd =>
    let dec := upd m.contextPointer t afterEnter.data
    let traced := afterEnter.events ++
      [FsmEvent.update m.currentActiveState m.contextPointer t]
    if dec.1.shouldRemainInCurrentState then
      ⟨false, afterEnter.machine, dec.2, traced⟩
    else if dec.1.targetStateValue = m.currentActiveState ∨
        ¬ dec.1.targetStateValue < m.stateCount then
      ⟨false, afterEnter.machine, dec.2, traced⟩
    else
      match (m.allStateCallbacks m.currentActiveState).onExit with
      | some g =>
          ⟨true, { afterEnter.machine with currentActiveState := dec.1.targetStateValue },
            g m.contextPointer t dec.2,
            traced ++ [FsmEvent.exit m.currentActiveState m.contextPointer t]⟩
      | none =>
          ⟨true, { afterEnter.machine with currentActiveState := dec.1.targetStateValue },
            dec.2, traced⟩

/-- Claim C1: the single-step procedure executed by update is exactly
the six-step algorithm stated in the spec. -/
theorem Fsm.processStateStep_follows_spec {Ctx Time D : Type} (m : Fsm Ctx Time D)
    (t : Time) (d : D) :
    m.processStateStep t d = specSingleStep m t d := by
  unfold Fsm.processStateStep specSingleStep Fsm.enterPhase
  simp only [Nat.not_lt]
  by_cases h : m.currentActiveState = m.lastEnteredState <;>
    simp only [h, ne_eq, not_true_eq_false, not_false_eq_true, ite_true, ite_false] <;>
    cases hE : (m.allStateCallbacks m.currentActiveState).onEnter <;>
    cases hU : (m.allStateCallbacks m.currentActiveState).onUpdate <;>
    simp only [hE, hU]

/-! ### Counting enter and exit invocations -/

/-- One when state `S` is both active and already entered (its enter
phase has run and not been superseded), zero otherwise.  This is the
potential function used to relate exit counts to enter counts. -/
def enteredNow {Ctx Time D : Type} (S : Nat) (m : Fsm Ctx Time D) : Nat :=
  if m.currentActiveState = S ∧ m.lastEnteredState = S then 1 else 0

theorem countEnter_append {Ctx Time : Type} (S : Nat) (a b : List (FsmEvent Ctx Time)) :
    countEnter S (a ++ b) = countEnter S a + countEnter S b :=
  List.countP_append _ _ _

theorem countExit_append {Ctx Time : Type} (S : Nat) (a b : List (FsmEvent Ctx Time)) :
    countExit S (a ++ b) = countExit S a + countExit S b :=
  List.countP_append _ _ _

theorem countEnter_nil {Ctx Time : Type} (S : Nat) :
    countEnter S ([] : List (FsmEvent Ctx Time)) = 0 := rfl

theorem countExit_nil {Ctx Time : Type} (S : Nat) :
    countExit S ([] : List (FsmEvent Ctx Time)) = 0 := rfl

theorem countEnter_enter_event {Ctx Time : Type} (S s : Nat) (c : Ctx) (t : Time) :
    countEnter S [FsmEvent.enter s c t] = if s = S then 1 else 0 := by
  by_cases h : s = S <;> simp [countEnter, isEnterOf, List.countP_cons, h]

theorem countEnter_update_event {Ctx Time : Type} (S s : Nat) (c : Ctx) (t : Time) :
    countEnter S [FsmEvent.update s c t] = 0 := by
  simp [countEnter, isEnterOf, List.countP_cons]

theorem countEnter_exit_event {Ctx Time : Type} (S s : Nat) (c : Ctx) (t : Time) :
    countEnter S [FsmEvent.exit s c t] = 0 := by
  simp [countEnter, isEnterOf, List.countP_cons]

theorem countExit_enter_event {Ctx Time : Type} (S s : Nat) (c : Ctx) (t : Time) :
    countExit S [FsmEvent.enter s c t] = 0 := by
  simp [countExit, isExitOf, List.countP_cons]

theorem countExit_update_event {Ctx Time : Type} (S s : Nat) (c : Ctx) (t : Time) :
    countExit S [FsmEvent.update s c t] = 0 := by
  simp [countExit, isExitOf, List.countP_cons]

theorem countExit_exit_event {Ctx Time : Type} (S s : Nat) (c : Ctx) (t : Time) :
    countExit S [FsmEvent.exit s c t] = if s = S then 1 else 0 := by
  by_cases h : s = S <;> simp [countExit, isExitOf, List.countP_cons, h]

theorem countExit_enterPhase {Ctx Time D : Type} (m : Fsm Ctx Time D) (t : Time) (d : D)
    (S : Nat) : countExit S (m.enterPhase t d).events = 0 := by
  rcases Fsm.enterPhase_events_cases m t d with h | ⟨_, _, h⟩ <;> rw [h]
  · exact countExit_nil S
  · exact countExit_enter_event S _ _ _

theorem Fsm.enterPhase_pairing {Ctx Time D : Type} (m : Fsm Ctx Time D) (t : Time) (d : D)
    (S : Nat) (hE : (m.allStateCallbacks S).onEnter.isSome = true) :
    (if m.currentActiveState = S then 1 else 0) ≤
      countEnter S (m.enterPhase t d).events + enteredNow S m := by
  by_cases hc : m.currentActiveState = S
  · by_cases hl : m.lastEnteredState = S
    · rw [Fsm.enterPhase_skip m t d (by rw [hc, hl])]
      simp [enteredNow, hc, hl]
    · have hne : m.currentActiveState ≠ m.lastEnteredState := by
        rw [hc]
        exact fun hh => hl hh.symm
      have hE' : (m.allStateCallbacks m.currentActiveState).onEnter.isSome = true := by
        rw [hc]
        exact hE
      rw [Fsm.enterPhase_events_of_isSome m t d hne hE']
      rw [countEnter_enter_event, if_pos hc]
      simp [hc]
  · simp [hc]

theorem Fsm.step_valid_exitSome {Ctx Time D : Type} (m : Fsm Ctx Time D) (t : Time) (d : D)
    (f : Ctx → Time → D → StateTransition × D) (g : Ctx → Time → D → D)
    (hU : (m.allStateCallbacks m.currentActiveState).onUpdate = some f)
    (hs : (f m.contextPointer t (m.enterPhase t d).data).1.shouldRemainInCurrentState =
      false)
    (hne : (f m.contextPointer t (m.enterPhase t d).data).1.targetStateValue ≠
      m.currentActiveState)
    (hlt : (f m.contextPointer t (m.enterPhase t d).data).1.targetStateValue <
      m.stateCount)
    (hX : (m.allStateCallbacks m.currentActiveState).onExit = some g) :
    m.processStateStep t d =
      ⟨true,
        { (m.enterPhase t d).machine with
            currentActiveState :=
              (f m.contextPointer t (m.enterPhase t d).data).1.targetStateValue },
        g m.contextPointer t (f m.contextPointer t (m.enterPhase t d).data).2,
        ((m.enterPhase t d).events ++
            [FsmEvent.update m.currentActiveState m.contextPointer t]) ++
          [FsmEvent.exit m.currentActiveState m.contextPointer t]⟩ := by
  have hno : ¬((f m.contextPointer t (m.enterPhase t d).data).1.targetStateValue =
      m.currentActiveState ∨
    m.stateCount ≤ (f m.contextPointer t (m.enterPhase t d).data).1.targetStateValue) := by
    push_neg
    exact ⟨hne, hlt⟩
  unfold Fsm.processStateStep
  simp only [hU, hs, Bool.false_eq_true, if_false]
  rw [if_neg hno]
  simp [hX]

theorem Fsm.step_valid_exitNone {Ctx Time D : Type} (m : Fsm Ctx Time D) (t : Time) (d : D)
    (f : Ctx → Time → D → StateTransition × D)
    (hU : (m.allStateCallbacks m.currentActiveState).onUpdate = some f)
    (hs : (f m.contextPointer t (m.enterPhase t d).data).1.shouldRemainInCurrentState =
      false)
    (hne : (f m.contextPointer t (m.enterPhase t d).data).1.targetStateValue ≠
      m.currentActiveState)
    (hlt : (f m.contextPointer t (m.enterPhase t d).data).1.targetStateValue <
      m.stateCount)
    (hX : (m.allStateCallbacks m.currentActiveState).onExit = none) :
    m.processStateStep t d =
      ⟨true,
        { (m.enterPhase t d).machine with
            currentActiveState :=
              (f m.contextPointer t (m.enterPhase t d).data).1.targetStateValue },
        (f m.contextPointer t (m.enterPhase t d).data).2,
        (m.enterPhase t d).events ++
          [FsmEvent.update m.currentActiveState m.contextPointer t]⟩ := by
  have hno : ¬((f m.contextPointer t (m.enterPhase t d).data).1.targetStateValue =
      m.currentActiveState ∨
    m.stateCount ≤ (f m.contextPointer t (m.enterPhase t d).data).1.targetStateValue) := by
    push_neg
    exact ⟨hne, hlt⟩
  unfold Fsm.processStateStep
  simp only [hU, hs, Bool.false_eq_true, if_false]
  rw [if_neg hno]
  simp [hX]

theorem Fsm.step_pairing {Ctx Time D : Type} (m : Fsm Ctx Time D) (t : Time) (d : D)
    (S : Nat) (hE : (m.allStateCallbacks S).onEnter.isSome = true) :
    countExit S (m.processStateStep t d).events +
        enteredNow S (m.processStateStep t d).machine ≤
      countEnter S (m.processStateStep t d).events + enteredNow S m := by
  have hpair := Fsm.enterPhase_pairing m t d S hE
  have hexit0 := countExit_enterPhase m t d S
  have hstay0 : enteredNow S (m.enterPhase t d).machine =
      if m.currentActiveState = S then 1 else 0 := by
    rw [Fsm.enterPhase_machine]
    unfold enteredNow
    by_cases hc : m.currentActiveState = S <;> simp [hc]
  cases hU : (m.allStateCallbacks m.currentActiveState).onUpdate with
  | none =>
    rw [Fsm.step_onUpdate_none m t d hU]
    simp only [hexit0, hstay0, Nat.zero_add]
    exact hpair
  | some f =>
    cases hb : (f m.contextPointer t
        (m.enterPhase t d).data).1.shouldRemainInCurrentState with
    | true =>
      rw [Fsm.step_stay m t d f hU hb]
      simp only [countExit_append, countEnter_append, hexit0, hstay0,
        countExit_update_event, countEnter_update_event, Nat.add_zero, Nat.zero_add]
      exact hpair
    | false =>
      by_cases hv : (f m.contextPointer t (m.enterPhase t d).data).1.targetStateValue =
          m.currentActiveState ∨
        m.stateCount ≤ (f m.contextPointer t (m.enterPhase t d).data).1.targetStateValue
      · rw [Fsm.step_invalid m t d f hU hb hv]
        simp only [countExit_append, countEnter_append, hexit0, hstay0,
          countExit_update_event, countEnter_update_event, Nat.add_zero, Nat.zero_add]
        exact hpair
      · push_neg at hv
        obtain ⟨hne, hlt⟩ := hv
        have hflag : enteredNow S
            ({ (m.enterPhase t d).machine with
                currentActiveState :=
                  (f m.contextPointer t (m.enterPhase t d).data).1.targetStateValue }) =
            0 := by
          rw [Fsm.enterPhase_machine]
          unfold enteredNow
          by_cases h1 : (f m.contextPointer t
              (m.enterPhase t d).data).1.targetStateValue = S
          · by_cases h2 : m.currentActiveState = S
            · exact absurd (h1.trans h2.symm) hne
            · simp [h1, h2]
          · simp [h1]
        cases hX : (m.allStateCallbacks m.currentActiveState).onExit with
        | some g =>
          rw [Fsm.step_valid_exitSome m t d f g hU hb hne hlt hX]
          simp only [countExit_append, countEnter_append, hexit0, hstay0,
            countExit_update_event, countEnter_update_event, countExit_exit_event,
            countEnter_exit_event, Nat.add_zero, Nat.zero_add]
          rw [hflag]
          simpa using hpair
        | none =>
          rw [Fsm.step_valid_exitNone m t d f hU hb hne hlt hX]
          simp only [countExit_append, countEnter_append, hexit0, hstay0,
            countExit_update_event, countEnter_update_event, Nat.add_zero, Nat.zero_add]
          rw [hflag]
          exact Nat.zero_le _

theorem Fsm.runChain_pairing {Ctx Time D : Type} (t : Time) (S : Nat) :
    ∀ (fuel : Nat) (m : Fsm Ctx Time D) (d : D) (m' : Fsm Ctx Time D) (d' : D)
      (tr : List (FsmEvent Ctx Time)),
      Fsm.runChain fuel m t d = .ok (m', d', tr) →
      (m.allStateCallbacks S).onEnter.isSome = true →
      countExit S tr + enteredNow S m' ≤ countEnter S tr + enteredNow S m := by
  intro fuel
  induction fuel with
  | zero =>
    intro m d m' d' tr h
    simp [Fsm.runChain] at h
  | succ n ih =>
    intro m d m' d' tr h hE
    rw [Fsm.runChain_succ] at h
    by_cases ht : (m.processStateStep t d).transitioned
    · rw [if_pos ht] at h
      cases hrec : Fsm.runChain n (m.processStateStep t d).machine t
          (m.processStateStep t d).data with
      | ok trip =>
        obtain ⟨m2, d2, tr2⟩ := trip
        rw [hrec] at h
        simp only [Except.ok.injEq, Prod.mk.injEq] at h
        obtain ⟨h1, _, h3⟩ := h
        subst h1
        subst h3
        have hE2 : ((m.processStateStep t d).machine.allStateCallbacks S).onEnter.isSome =
            true := by
          rw [Fsm.step_callbacks]
          exact hE
        have ih2 := ih (m.processStateStep t d).machine (m.processStateStep t d).data
          _ _ _ hrec hE2
        have hsp := Fsm.step_pairing m t d S hE
        rw [countExit_append, countEnter_append]
        omega
      | error e =>
        rw [hrec] at h
        simp at h
    · rw [if_neg ht] at h
      simp only [Except.ok.injEq, Prod.mk.injEq] at h
      obtain ⟨h1, _, h3⟩ := h
      subst h1
      subst h3
      exact Fsm.step_pairing m t d S hE

theorem Fsm.update_pairing {Ctx Time D : Type} (p : TransitionPolicy) (m : Fsm Ctx Time D)
    (t : Time) (d : D) (S : Nat) (m' : Fsm Ctx Time D) (d' : D)
    (tr : List (FsmEvent Ctx Time))
    (hok : Fsm.update p m t d = .ok (m', d', tr))
    (hE : (m.allStateCallbacks S).onEnter.isSome = true) :
    countExit S tr + enteredNow S m' ≤ countEnter S tr + enteredNow S m := by
  unfold Fsm.update at hok
  by_cases hg : m.stateCount ≤ m.currentActiveState
  · rw [if_pos hg] at hok
    simp at hok
  · rw [if_neg hg] at hok
    cases p with
    | Immediate =>
      exact Fsm.runChain_pairing t S kMaxTransitionsPerFrame m d m' d' tr hok hE
    | SingleTransition =>
      simp only [Except.ok.injEq, Prod.mk.injEq] at hok
      obtain ⟨h1, _, h3⟩ := hok
      subst h1
      subst h3
      exact Fsm.step_pairing m t d S hE

theorem Fsm.runUpdates_pairing {Ctx Time D : Type} (p : TransitionPolicy) (S : Nat) :
    ∀ (ts : List Time) (m : Fsm Ctx Time D) (d : D) (m' : Fsm Ctx Time D) (d' : D)
      (tr : List (FsmEvent Ctx Time)),
      Fsm.runUpdates p ts m d = .ok (m', d', tr) →
      (m.allStateCallbacks S).onEnter.isSome = true →
      countExit S tr + enteredNow S m' ≤ countEnter S tr + enteredNow S m := by
  intro ts
  induction ts with
  | nil =>
    intro m d m' d' tr h _
    simp only [Fsm.runUpdates, Except.ok.injEq, Prod.mk.injEq] at h
    obtain ⟨h1, _, h3⟩ := h
    subst h1
    subst h3
    simp [countExit_nil, countEnter_nil]
  | cons t ts ih =>
    intro m d m' d' tr h hE
    simp only [Fsm.runUpdates] at h
    split at h
    · rename_i m2 d2 tr2 h1
      split at h
      · rename_i m3 d3 tr3 h2
        simp only [Except.ok.injEq, Prod.mk.injEq] at h
        obtain ⟨hm, _, htr⟩ := h
        subst hm
        subst htr
        have hE2 : (m2.allStateCallbacks S).onEnter.isSome = true :=
          Fsm.update_preserves p t
            (fun mm => (mm.allStateCallbacks S).onEnter.isSome = true)
            (fun mm dd hh => by simp only [Fsm.step_callbacks]; exact hh)
            m d m2 d2 tr2 h1 hE
        have hu := Fsm.update_pairing p m t d S m2 d2 tr2 h1 hE
        have hrest := ih m2 d2 m3 d3 tr3 h2 hE2
        rw [countExit_append, countEnter_append]
        omega
      · simp at h
    · simp at h

theorem Fsm.step_exit_names_current {Ctx Time D : Type} (m : Fsm Ctx Time D) (t : Time)
    (d : D) (s : Nat) (c : Ctx) (tt : Time)
    (hmem : FsmEvent.exit s c tt ∈ (m.processStateStep t d).events) :
    s = m.currentActiveState ∧ (m.processStateStep t d).transitioned = true ∧
      (m.processStateStep t d).machine.currentActiveState ≠ m.currentActiveState := by
  cases hU : (m.allStateCallbacks m.currentActiveState).onUpdate with
  | none =>
    rw [Fsm.step_onUpdate_none m t d hU] at hmem
    rcases Fsm.enterPhase_events_cases m t d with hph | ⟨_, _, hph⟩ <;>
      simp [hph] at hmem
  | some f =>
    cases hb : (f m.contextPointer t
        (m.enterPhase t d).data).1.shouldRemainInCurrentState with
    | true =>
      rw [Fsm.step_stay m t d f hU hb] at hmem
      rcases Fsm.enterPhase_events_cases m t d with hph | ⟨_, _, hph⟩ <;>
        simp [hph] at hmem
    | false =>
      by_cases hv : (f m.contextPointer t (m.enterPhase t d).data).1.targetStateValue =
          m.currentActiveState ∨
        m.stateCount ≤ (f m.contextPointer t (m.enterPhase t d).data).1.targetStateValue
      · rw [Fsm.step_invalid m t d f hU hb hv] at hmem
        rcases Fsm.enterPhase_events_cases m t d with hph | ⟨_, _, hph⟩ <;>
          simp [hph] at hmem
      · push_neg at hv
        obtain ⟨hne, hlt⟩ := hv
        cases hX : (m.allStateCallbacks m.currentActiveState).onExit with
        | some g =>
          rw [Fsm.step_valid_exitSome m t d f g hU hb hne hlt hX] at hmem
          rw [Fsm.step_valid_exitSome m t d f g hU hb hne hlt hX]
          have hs : s = m.currentActiveState := by
            rcases Fsm.enterPhase_events_cases m t d with hph | ⟨_, _, hph⟩ <;>
              simp [hph] at hmem <;> exact hmem.1
          refine ⟨hs, rfl, ?_⟩
          simpa using hne
        | none =>
          rw [Fsm.step_valid_exitNone m t d f hU hb hne hlt hX] at hmem
          rcases Fsm.enterPhase_events_cases m t d with hph | ⟨_, _, hph⟩ <;>
            simp [hph] at hmem

/-- Counterexample to C7 as stated: on a machine whose state 0 has an
onExit callback but no onEnter callback, a single update produces one
onExit invocation for state 0 and zero onEnter invocations for it, so
exits exceed enters. -/
theorem Fsm.exit_without_enter_counterexample :
    ¬ (countExit 0 (okEvents (Fsm.update .SingleTransition exitOnlyFsm 0 ())) ≤
       countEnter 0 (okEvents (Fsm.update .SingleTransition exitOnlyFsm 0 ()))) := by
  decide

/-- Claim C7 (amended): for every state `S` that has an onEnter
callback configured, over any successful sequence of update calls from
a freshly constructed machine the number of onExit invocations for `S`
never exceeds the number of onEnter invocations for `S`; moreover every
onExit invocation is emitted by a transitioning step, names the state
that was active before the change, and the step ends in a different
state — the exit precedes the state change it accompanies. -/
theorem Fsm.enter_exit_pairing :
    (∀ (Ctx Time D : Type) (p : TransitionPolicy) (ts : List Time)
        (m : Fsm Ctx Time D) (d : D) (S : Nat) (m' : Fsm Ctx Time D) (d' : D)
        (tr : List (FsmEvent Ctx Time)),
      (m.allStateCallbacks S).onEnter.isSome = true →
      m.lastEnteredState = m.stateCount →
      m.currentActiveState < m.stateCount →
      Fsm.runUpdates p ts m d = .ok (m', d', tr) →
      countExit S tr ≤ countEnter S tr) ∧
    (∀ (Ctx Time D : Type) (m : Fsm Ctx Time D) (t : Time) (d : D) (s : Nat) (c : Ctx)
        (tt : Time),
      FsmEvent.exit s c tt ∈ (m.processStateStep t d).events →
      s = m.currentActiveState ∧ (m.processStateStep t d).transitioned = true ∧
        (m.processStateStep t d).machine.currentActiveState ≠ m.currentActiveState) := by
  refine ⟨?_, ?_⟩
  · intro Ctx Time D p ts m d S m' d' tr hE hfresh hcur hok
    have h0 : enteredNow S m = 0 := by
      unfold enteredNow
      split_ifs with hss
      · obtain ⟨h1, h2⟩ := hss
        omega
      · rfl
    have := Fsm.runUpdates_pairing p S ts m d m' d' tr hok hE
    omega
  · intro Ctx Time D m t d s c tt hmem
    exact Fsm.step_exit_names_current m t d s c tt hmem

/-- Witness for the amended C7: the counting bound at the concrete
three-state scenario over one chained update, and the exit-naming
property at the concrete exit-only machine. -/
theorem Fsm.enter_exit_pairing_witness :
    (countExit 1 [FsmEvent.enter 0 () 0, FsmEvent.update 0 () 0, FsmEvent.enter 1 () 0,
        FsmEvent.update 1 () 0, FsmEvent.enter 2 () 0, FsmEvent.update 2 () 0] ≤
      countEnter 1 [FsmEvent.enter 0 () 0, FsmEvent.update 0 () 0, FsmEvent.enter 1 () 0,
        FsmEvent.update 1 () 0, FsmEvent.enter 2 () 0, FsmEvent.update 2 () 0]) ∧
    (0 = exitOnlyFsm.currentActiveState ∧
      (exitOnlyFsm.processStateStep 0 ()).transitioned = true ∧
      (exitOnlyFsm.processStateStep 0 ()).machine.currentActiveState ≠
        exitOnlyFsm.currentActiveState) :=
  ⟨Fsm.enter_exit_pairing.1 Unit Nat Unit .Immediate [0] scenarioFsm () 1
      ⟨3, (), 2, 2, scenarioCallbacks⟩ ()
      [FsmEvent.enter 0 () 0, FsmEvent.update 0 () 0, FsmEvent.enter 1 () 0,
        FsmEvent.update 1 () 0, FsmEvent.enter 2 () 0, FsmEvent.update 2 () 0]
      rfl rfl (by decide) rfl,
    Fsm.enter_exit_pairing.2 Unit Nat Unit exitOnlyFsm 0 () 0 () 0 (by decide)⟩
